import Mathlib

/-! Overview.
Shallow embedding of `keepachangelog_validator.py` ("Keep a Changelog"
validator).  Python strings are modelled as Lean `String` / `List Char`
(the inputs are ASCII); the regular expressions of the source are
translated into explicit matching functions whose backtracking behaviour
is reproduced where it matters; `datetime.strptime`, which can raise
`ValueError`, is modelled as an `Option`-valued parser, and functions of
the source that can raise return `Option` (with `none` for an escaping
exception).  Console output (`print`) is modelled as an explicit output
channel only where a property refers to it.
-/

/-! Part 1: basic string utilities (Python built-ins used by the source). -/

/-- Whitespace characters removed by Python's `str.strip()` (ASCII range,
which covers every input produced by this validator's regexes). -/
def isPySpace (c : Char) : Bool :=
  c = ' ' || c = '\t' || c = '\n' || c = '\r' || c = '\x0b' || c = '\x0c'

/-- Python `str.strip()` on a character list. -/
def pyStripL (cs : List Char) : List Char :=
  ((cs.dropWhile isPySpace).reverse.dropWhile isPySpace).reverse

/-- Python `str.strip()`. -/
def pyStrip (s : String) : String :=
  ⟨pyStripL s.data⟩

/-- Python substring containment `needle in hay` (also the semantics of
`re.search` on a pattern with no metacharacters). -/
def containsSub (hay needle : List Char) : Bool :=
  if needle.isPrefixOf hay then true
  else
    match hay with
    | [] => false
    | _ :: t => containsSub t needle

/-- Python `<` on strings: code-point lexicographic comparison of the
character sequences. -/
def pyLt : List Char → List Char → Bool
  | [], [] => false
  | [], _ :: _ => true
  | _ :: _, [] => false
  | a :: as, b :: bs => if a < b then true else if b < a then false else pyLt as bs

/-- Python `str.split("\n")`: split on every newline, keeping empty parts. -/
def splitLines : List Char → List (List Char)
  | [] => [[]]
  | c :: cs =>
    if c = '\n' then [] :: splitLines cs
    else
      match splitLines cs with
      | l :: ls => (c :: l) :: ls
      | [] => [[c]]

/-- Python `str.split("\n- ")` as used on a section body: split on each
(non-overlapping, leftmost) occurrence of the three-character separator. -/
def splitDash : List Char → List (List Char)
  | [] => [[]]
  | '\n' :: '-' :: ' ' :: cs => [] :: splitDash cs
  | c :: cs =>
    match splitDash cs with
    | l :: ls => (c :: l) :: ls
    | [] => [[c]]

/-! Part 2: the date-shape fragment `\d{4}-\d{2}-\d{2}`. -/

/-- Matcher for the regex fragment `\d{4}-\d{2}-\d{2}` at the current
position: on success returns the ten matched characters (as the captured
date string) and the remaining input. -/
def dateShapeAt : List Char → Option (String × List Char)
  | y1 :: y2 :: y3 :: y4 :: '-' :: m1 :: m2 :: '-' :: d1 :: d2 :: rest =>
    if y1.isDigit && y2.isDigit && y3.isDigit && y4.isDigit &&
        m1.isDigit && m2.isDigit && d1.isDigit && d2.isDigit then
      some (⟨[y1, y2, y3, y4, '-', m1, m2, '-', d1, d2]⟩, rest)
    else none
  | _ => none

/-- Numeric value of a decimal digit character. -/
def digitVal (c : Char) : Nat := c.toNat - '0'.toNat

/-- Gregorian leap-year rule, as used by Python's `datetime`. -/
def isLeap (y : Nat) : Bool :=
  y % 4 = 0 && (y % 100 ≠ 0 || y % 400 = 0)

/-- Number of days in a month, as used by Python's `datetime`. -/
def daysInMonth (y m : Nat) : Nat :=
  if m = 2 then (if isLeap y then 29 else 28)
  else if m = 4 || m = 6 || m = 9 || m = 11 then 30
  else 31

/-- Model of `datetime.datetime.strptime(s, "%Y-%m-%d")` as an `Option`:
`none` stands for the `ValueError` the Python call raises when the string
does not have the `YYYY-MM-DD` digit shape or is not a valid calendar date
(month out of 1..12, day out of range for the month, or year 0, which is
below `datetime.MINYEAR`).  A valid date is returned encoded as the
natural number `y * 10000 + m * 100 + d`, an order-isomorphic encoding of
`datetime` comparison for in-range fields. -/
def strptime (s : String) : Option Nat :=
  match s.data with
  | [y1, y2, y3, y4, '-', m1, m2, '-', d1, d2] =>
    if y1.isDigit && y2.isDigit && y3.isDigit && y4.isDigit &&
        m1.isDigit && m2.isDigit && d1.isDigit && d2.isDigit then
      let y := ((digitVal y1 * 10 + digitVal y2) * 10 + digitVal y3) * 10 + digitVal y4
      let m := digitVal m1 * 10 + digitVal m2
      let d := digitVal d1 * 10 + digitVal d2
      if 1 ≤ y && 1 ≤ m && m ≤ 12 && 1 ≤ d && d ≤ daysInMonth y m then
        some (y * 10000 + m * 100 + d)
      else none
    else none
  | _ => none

/-! Part 3: data model, `Version` objects and section records. -/

/-- One section record produced by `parse_changelog`: the Python dict
`{'section': ..., 'changes': ...}`.  (`section` is a Lean keyword, so the
first field is called `sectionName`.) -/
structure ChangeSection where
  sectionName : String
  changes : List String
deriving DecidableEq, Repr

/-- The `Version` class of the source: a version string, a release date
string and the list of section records.  The accessor methods
`version()`, `date()` and `sections()` are field projections here. -/
structure Version where
  version : String
  date : String
  sections : List ChangeSection
deriving DecidableEq, Repr

/-- Model of `Version.has_link_reference`: the source always returns `True`. -/
def hasLinkReference (_v : Version) : Bool := true

/-! Part 4: `KACLValidator.verify_semver`. -/

/-- All remainders of `cs` reachable by consuming zero or more leading
decimal digits: the backtracking alternatives of the regex fragment
`\d*`. -/
def digitRemainders : List Char → List (List Char)
  | [] => [[]]
  | c :: cs => if c.isDigit then (c :: cs) :: digitRemainders cs else [c :: cs]

/-- All remainders of `cs` reachable by matching the regex fragment
`(0|[1-9]\d*)` (a semver numeric identifier) at the current position. -/
def numRemainders : List Char → List (List Char)
  | [] => []
  | c :: cs =>
    if c = '0' then [cs]
    else if c.isDigit then digitRemainders cs
    else []

/-- Model of `KACLValidator.verify_semver`: `re.match` of the class attribute
`semver_regex` against the version string, i.e. a prefix match anchored
at the start.  The trailing optional groups of the pattern (pre-release
`(?:-...)?` and build metadata `(?:\+...)?`) can always match the empty
string, so matchability is decided by the mandatory part
`(0|[1-9]\d*)\.(0|[1-9]\d*)\.(0|[1-9]\d*)`, whose backtracking
alternatives are enumerated here. -/
def verify_semver (version : String) : Bool :=
  (numRemainders version.data).any fun r1 =>
    match r1 with
    | '.' :: r2 =>
      (numRemainders r2).any fun r3 =>
        match r3 with
        | '.' :: r4 => !(numRemainders r4).isEmpty
        | _ => false
    | _ => false

/-! Part 5: `KACLValidator.verify_date`. -/

/-- Model of `KACLValidator.verify_date`: the date must be non-empty (the
source's `not date or len(date) < 1` guard) and `re.match` of
`\d{4}-\d{2}-\d{2}` against it must succeed, i.e. its first ten
characters must have the digit shape; anything after them is ignored. -/
def verify_date (date : String) : Bool :=
  if date.data.length < 1 then false
  else (dateShapeAt date.data).isSome

/-! Part 6: `KACLValidator.verify_sections` and `verify_links`. -/

/-- Result of `KACLValidator.verify_sections` together with its console
output: `ok` is the returned boolean, `printed` the lines written by the
`print("Section issue:", ...)` call (the source prints the arguments
separated by a space). -/
structure SectionsResult where
  ok : Bool
  printed : List String
deriving DecidableEq, Repr

/-- Model of `KACLValidator.verify_sections`: walk the section records in order;
at the first one whose `section` entry is not in `allowed_sections`,
print a diagnostic naming it and return `False`; return `True` when all
are allowed. -/
def verify_sections (sections : List ChangeSection) (allowed : List String) :
    SectionsResult :=
  match sections with
  | [] => ⟨true, []⟩
  | s :: rest =>
    if s.sectionName ∈ allowed then verify_sections rest allowed
    else ⟨false, ["Section issue: " ++ s.sectionName]⟩

/-- Model of `KACLValidator.verify_links`: a stub that always returns `True`. -/
def verify_links (_hasLink : Bool) : Bool := true

/-! Part 7: `KACLValidator.verify_version`. -/

/-- Model of `KACLValidator.verify_version`: run the four checks in order, each
appending its message to the accumulated error list when it fails, and
return the list.  The sequential `let errors := ...` chain mirrors the
source's repeated `errors.append(...)`. -/
def verify_version (v : Version) (allowed : List String) : List String :=
  let errors : List String := []
  let errors :=
    if !verify_semver v.version then
      errors ++ ["Version " ++ v.version ++ " is not a valid semantic version."]
    else errors
  let errors :=
    if !verify_date v.date then
      errors ++ ["Version " ++ v.version ++ " has an invalid release date format."]
    else errors
  let errors :=
    if !(verify_sections v.sections allowed).ok then
      errors ++ ["Version " ++ v.version ++ " contains an invalid section. " ++
        "Valid sections are: " ++ String.intercalate ", " allowed]
    else errors
  let errors :=
    if !verify_links (hasLinkReference v) then
      errors ++ ["Version " ++ v.version ++
        " is linked, but no link reference found in the changelog."]
    else errors
  errors

/-- The allow-list hard-coded in the source's `main`. -/
def allowedSections : List String :=
  ["Added", "Changed", "Fixed", "Deprecated", "Removed"]

/-! Part 8: the scanner's release-heading pattern
`## \[(\d+\.\d+\.\d+)\] - (\d{4}-\d{2}-\d{2})` -/

/-- Matcher for the regex fragment `\d+\.` at the current position:
consume the (maximal) run of digits, then a dot.  Backtracking inside
`\d+` cannot produce other outcomes because every shorter split would
require the following `\.` to match a digit. -/
def numDotAt (cs : List Char) : Option (List Char × List Char) :=
  match cs.takeWhile Char.isDigit with
  | [] => none
  | d :: ds =>
    match cs.dropWhile Char.isDigit with
    | '.' :: rest => some (d :: ds, rest)
    | _ => none

/-- Matcher for the regex fragment `\d+` at the current position
(maximal digit run; the source pattern follows it with a non-digit). -/
def numAt (cs : List Char) : Option (List Char × List Char) :=
  match cs.takeWhile Char.isDigit with
  | [] => none
  | d :: ds => some (d :: ds, cs.dropWhile Char.isDigit)

/-- Matcher, at the current position, for the scanner's heading pattern
`## \[(\d+\.\d+\.\d+)\] - (\d{4}-\d{2}-\d{2})`: on success returns the
two captured groups (version and date) and the remaining input. -/
def strictMatchAt : List Char → Option (String × String × List Char)
  | '#' :: '#' :: ' ' :: '[' :: cs =>
    match numDotAt cs with
    | none => none
    | some (a, r1) =>
      match numDotAt r1 with
      | none => none
      | some (b, r2) =>
        match numAt r2 with
        | none => none
        | some (c, r3) =>
          match r3 with
          | ']' :: ' ' :: '-' :: ' ' :: r4 =>
            match dateShapeAt r4 with
            | none => none
            | some (d, rest) => some (⟨a ++ '.' :: b ++ '.' :: c⟩, d, rest)
          | _ => none
  | _ => none

theorem takeWhile_dropWhile_length (p : Char → Bool) (cs : List Char) :
    (cs.takeWhile p).length + (cs.dropWhile p).length = cs.length := by
  rw [← List.length_append, List.takeWhile_append_dropWhile]

theorem dateShapeAt_length {cs : List Char} {d : String} {rest : List Char}
    (h : dateShapeAt cs = some (d, rest)) : rest.length + 10 = cs.length := by
  unfold dateShapeAt at h
  split at h
  · split at h
    · simp only [Option.some.injEq, Prod.mk.injEq] at h
      obtain ⟨-, rfl⟩ := h
      simp
    · exact absurd h (by simp)
  · exact absurd h (by simp)

theorem numDotAt_length {cs : List Char} {a rest : List Char}
    (h : numDotAt cs = some (a, rest)) : rest.length < cs.length := by
  unfold numDotAt at h
  split at h
  · exact absurd h (by simp)
  · rename_i d ds htake
    split at h
    · rename_i rest' hdrop
      simp only [Option.some.injEq, Prod.mk.injEq] at h
      obtain ⟨-, rfl⟩ := h
      have hlen := takeWhile_dropWhile_length Char.isDigit cs
      rw [htake, hdrop] at hlen
      simp at hlen
      omega
    · exact absurd h (by simp)

theorem numAt_length {cs : List Char} {a rest : List Char}
    (h : numAt cs = some (a, rest)) : rest.length < cs.length := by
  unfold numAt at h
  split at h
  · exact absurd h (by simp)
  · rename_i d ds htake
    simp only [Option.some.injEq, Prod.mk.injEq] at h
    obtain ⟨-, rfl⟩ := h
    have hlen := takeWhile_dropWhile_length Char.isDigit cs
    rw [htake] at hlen
    simp at hlen
    omega

theorem strictMatchAt_length {cs : List Char} {v d : String} {rest : List Char}
    (h : strictMatchAt cs = some (v, d, rest)) : rest.length < cs.length := by
  unfold strictMatchAt at h
  split at h
  · rename_i cs'
    split at h
    · exact absurd h (by simp)
    · rename_i a r1 h1
      split at h
      · exact absurd h (by simp)
      · rename_i b r2 h2
        split at h
        · exact absurd h (by simp)
        · rename_i c r3 h3
          split at h
          · rename_i r4
            split at h
            · exact absurd h (by simp)
            · rename_i d' rest' h4
              simp only [Option.some.injEq, Prod.mk.injEq] at h
              obtain ⟨-, -, rfl⟩ := h
              have l4 := dateShapeAt_length h4
              have l3 := numAt_length h3
              have l2 := numDotAt_length h2
              have l1 := numDotAt_length h1
              simp only [List.length_cons] at l3 ⊢
              omega
          · exact absurd h (by simp)
  · exact absurd h (by simp)

/-- Fuel-driven scan for `re.findall` of the scanner's heading pattern:
left to right, resuming just past each match (matches are
non-overlapping, as for `re.findall`).  The fuel only bounds the number
of iterations so that the recursion is structural (and so reducible by
evaluation); each iteration consumes at least one character, so fuel
equal to the input length is never exhausted
(`findVersionDatesStrictF_congr`). -/
def findVersionDatesStrictF : Nat → List Char → List (String × String)
  | 0, _ => []
  | _ + 1, [] => []
  | fuel + 1, c :: cs =>
    match strictMatchAt (c :: cs) with
    | some (v, d, rest) => (v, d) :: findVersionDatesStrictF fuel rest
    | none => findVersionDatesStrictF fuel cs

/-- Model of `re.findall` of the scanner's heading pattern over the whole
document. -/
def findVersionDatesStrict (cs : List Char) : List (String × String) :=
  findVersionDatesStrictF cs.length cs

theorem findVersionDatesStrictF_congr :
    ∀ (fuel fuel' : Nat) (cs : List Char), cs.length ≤ fuel → cs.length ≤ fuel' →
      findVersionDatesStrictF fuel cs = findVersionDatesStrictF fuel' cs := by
  intro fuel
  induction fuel with
  | zero =>
    intro fuel' cs h h'
    have : cs = [] := List.length_eq_zero.mp (Nat.le_zero.mp h)
    subst this
    cases fuel' <;> rfl
  | succ f ih =>
    intro fuel' cs h h'
    cases cs with
    | nil => cases fuel' <;> rfl
    | cons c cs' =>
      cases fuel' with
      | zero => simp at h'
      | succ f' =>
        unfold findVersionDatesStrictF
        split
        · rename_i v d rest hm
          have hlen := strictMatchAt_length hm
          simp only [List.length_cons] at h h' hlen
          rw [ih f' rest (by omega) (by omega)]
        · simp only [List.length_cons] at h h'
          rw [ih f' cs' (by omega) (by omega)]

/-! Part 9: `verify_changelog_format` (the Structural Scanner). -/

/-- The scanner's per-line check: a line that starts with `##`, does not
contain `[Unreleased]` and does not contain `###` must fully match
`## \[(\d+\.\d+\.\d+)\] - (\d{4}-\d{2}-\d{2})$` after `str.strip()`
(the `$` anchor demands that the stripped line end with the match);
every other line is ignored. -/
def lineOk (line : List Char) : Bool :=
  if ['#', '#'].isPrefixOf line && !containsSub line "[Unreleased]".data &&
      !containsSub line "###".data then
    match strictMatchAt (pyStripL line) with
    | some (_, _, rest) => rest.isEmpty
    | none => false
  else true

/-- The scanner's ordering loop over consecutive `(version, date)` pairs
(`for i in range(1, len(matches))`).  Each iteration first parses both
dates with `strptime` (a `ValueError` there escapes the function: `none`),
then returns `False` if `version_current >= version_previous`, then
returns `False` if `date_current > date_previous`. -/
def orderLoop : List (String × String) → Option Bool
  | (vp, dp) :: (vc, dc) :: rest =>
    match strptime dc, strptime dp with
    | some tc, some tp =>
      if pyLt vc.data vp.data then
        if tp < tc then some false
        else orderLoop ((vc, dc) :: rest)
      else some false
    | _, _ => none
  | _ => some true

/-- Model of `verify_changelog_format`, the Structural Scanner.  `some b` models a
normal boolean return, `none` the `ValueError` escaping from `strptime`
on a calendar-invalid matched date.  The checks run in source order:
`re.search` for `# Changelog`, `re.search` for `## [Unreleased]` (both
patterns are metacharacter-free up to escapes, i.e. substring searches),
the per-line heading-shape check, the requirement of at least two
`re.findall` matches of the heading pattern, and the ordering loop. -/
def verify_changelog_format (content : String) : Option Bool :=
  if !containsSub content.data "# Changelog".data then some false
  else if !containsSub content.data "## [Unreleased]".data then some false
  else if !(splitLines content.data).all lineOk then some false
  else
    let ms := findVersionDatesStrict content.data
    if ms.length < 2 then some false
    else orderLoop ms

/-! Part 10: the extractor's release pattern `## \[(.*?)\] - (\d{4}-\d{2}-\d{2})`. -/

/-- Matcher for the closing part `\] - (\d{4}-\d{2}-\d{2})` of the
extractor's release pattern. -/
def closeDateAt : List Char → Option (String × List Char)
  | ']' :: ' ' :: '-' :: ' ' :: rest => dateShapeAt rest
  | _ => none

/-- The lazy group `(.*?)` of the extractor's release pattern: starting
from the shortest candidate, extend the version capture (accumulated in
`acc`, reversed) one character at a time until `\] - (\d{4}-\d{2}-\d{2})`
matches; `.` does not match a newline, so reaching one fails. -/
def lazyVersionFrom (acc : List Char) : List Char → Option (String × String × List Char)
  | [] => none
  | c :: cs' =>
    match closeDateAt (c :: cs') with
    | some (d, rest) => some (⟨acc.reverse⟩, d, rest)
    | none => if c = '\n' then none else lazyVersionFrom (c :: acc) cs'

/-- Matcher, at the current position, for the extractor's release
pattern `## \[(.*?)\] - (\d{4}-\d{2}-\d{2})`. -/
def releaseMatchAt : List Char → Option (String × String × List Char)
  | '#' :: '#' :: ' ' :: '[' :: cs => lazyVersionFrom [] cs
  | _ => none

theorem closeDateAt_length {cs : List Char} {d : String} {rest : List Char}
    (h : closeDateAt cs = some (d, rest)) : rest.length < cs.length := by
  unfold closeDateAt at h
  split at h
  · have := dateShapeAt_length h
    simp only [List.length_cons]
    omega
  · exact absurd h (by simp)

theorem lazyVersionFrom_length {acc : List Char} :
    ∀ {cs : List Char} {v d : String} {rest : List Char},
      lazyVersionFrom acc cs = some (v, d, rest) → rest.length < cs.length := by
  intro cs
  induction cs generalizing acc with
  | nil =>
    intro v d rest h
    exact absurd h (by simp [lazyVersionFrom])
  | cons c cs' ih =>
    intro v d rest h
    unfold lazyVersionFrom at h
    split at h
    · rename_i d' rest' hc
      simp only [Option.some.injEq, Prod.mk.injEq] at h
      obtain ⟨-, -, rfl⟩ := h
      exact closeDateAt_length hc
    · split at h
      · exact absurd h (by simp)
      · have := ih h
        simp only [List.length_cons]
        omega

theorem releaseMatchAt_length {cs : List Char} {v d : String} {rest : List Char}
    (h : releaseMatchAt cs = some (v, d, rest)) : rest.length < cs.length := by
  unfold releaseMatchAt at h
  split at h
  · have := lazyVersionFrom_length h
    simp only [List.length_cons]
    omega
  · exact absurd h (by simp)

/-- Fuel-driven scan for `re.findall` of the extractor's release
pattern: left-to-right, non-overlapping matches, resuming just past each
match.  Fuel equal to the input length is never exhausted
(`findReleasesF_congr`). -/
def findReleasesF : Nat → List Char → List (String × String)
  | 0, _ => []
  | _ + 1, [] => []
  | fuel + 1, c :: cs =>
    match releaseMatchAt (c :: cs) with
    | some (v, d, rest) => (v, d) :: findReleasesF fuel rest
    | none => findReleasesF fuel cs

/-- Model of `re.findall` of the extractor's release pattern over the whole
document. -/
def findReleases (cs : List Char) : List (String × String) :=
  findReleasesF cs.length cs

theorem findReleasesF_congr :
    ∀ (fuel fuel' : Nat) (cs : List Char), cs.length ≤ fuel → cs.length ≤ fuel' →
      findReleasesF fuel cs = findReleasesF fuel' cs := by
  intro fuel
  induction fuel with
  | zero =>
    intro fuel' cs h h'
    have : cs = [] := List.length_eq_zero.mp (Nat.le_zero.mp h)
    subst this
    cases fuel' <;> rfl
  | succ f ih =>
    intro fuel' cs h h'
    cases cs with
    | nil => cases fuel' <;> rfl
    | cons c cs' =>
      cases fuel' with
      | zero => simp at h'
      | succ f' =>
        unfold findReleasesF
        split
        · rename_i v d rest hm
          have hlen := releaseMatchAt_length hm
          simp only [List.length_cons] at h h' hlen
          rw [ih f' rest (by omega) (by omega)]
        · simp only [List.length_cons] at h h'
          rw [ih f' cs' (by omega) (by omega)]

/-! Part 11: the extractor's section pattern `### (.*?)\n(.*?)(?=\n###|\Z)`
(compiled with `re.DOTALL`) -/

/-- Split the input at the first position where `\n###` starts: the body
of the lookahead `(?=\n###|\Z)`.  Returns the consumed part and the
remainder (empty when the alternative `\Z`, end of input, applied). -/
def splitAtMarker : List Char → List Char × List Char
  | [] => ([], [])
  | c :: cs =>
    if "\n###".data.isPrefixOf (c :: cs) then ([], c :: cs)
    else
      match splitAtMarker cs with
      | (b, r) => (c :: b, r)

/-- Matcher, at the current position, for the section pattern
`### (.*?)\n(.*?)(?=\n###|\Z)` under `re.DOTALL`: after the literal
`### `, the lazy title group runs to the first newline, and the lazy
body group runs to the first `\n###` or to the end of input. -/
def sectionMatchAt : List Char → Option (String × String × List Char)
  | '#' :: '#' :: '#' :: ' ' :: rest =>
    match rest.dropWhile (· ≠ '\n') with
    | '\n' :: afterTitle =>
      some (⟨rest.takeWhile (· ≠ '\n')⟩, ⟨(splitAtMarker afterTitle).1⟩,
        (splitAtMarker afterTitle).2)
    | _ => none
  | _ => none

theorem splitAtMarker_append : ∀ cs : List Char,
    (splitAtMarker cs).1 ++ (splitAtMarker cs).2 = cs := by
  intro cs
  induction cs with
  | nil => simp [splitAtMarker]
  | cons c cs' ih =>
    unfold splitAtMarker
    split
    · simp
    · simpa using ih

theorem sectionMatchAt_length {cs : List Char} {t b : String} {rest : List Char}
    (h : sectionMatchAt cs = some (t, b, rest)) : rest.length < cs.length := by
  unfold sectionMatchAt at h
  split at h
  · rename_i rest0
    split at h
    · rename_i afterTitle hdrop
      simp only [Option.some.injEq, Prod.mk.injEq] at h
      obtain ⟨-, -, rfl⟩ := h
      have h1 : (splitAtMarker afterTitle).2.length ≤ afterTitle.length := by
        have := congrArg List.length (splitAtMarker_append afterTitle)
        simp at this
        omega
      have h2 : ('\n' :: afterTitle).length ≤ rest0.length := by
        rw [← hdrop]
        have := takeWhile_dropWhile_length (fun c => decide (c ≠ '\n')) rest0
        omega
      simp only [List.length_cons] at h2 ⊢
      omega
    · exact absurd h (by simp)
  · exact absurd h (by simp)

/-- Fuel-driven scan for `re.findall` of the extractor's section
pattern: left-to-right, non-overlapping matches, resuming just past each
match (the lookahead consumes nothing, so the scan resumes at the
`\n###` that ended the body).  Fuel equal to the input length is never
exhausted (`findSectionsF_congr`). -/
def findSectionsF : Nat → List Char → List (String × String)
  | 0, _ => []
  | _ + 1, [] => []
  | fuel + 1, c :: cs =>
    match sectionMatchAt (c :: cs) with
    | some (t, b, rest) => (t, b) :: findSectionsF fuel rest
    | none => findSectionsF fuel cs

/-- Model of `re.findall` of the extractor's section pattern over the whole
document. -/
def findSections (cs : List Char) : List (String × String) :=
  findSectionsF cs.length cs

theorem findSectionsF_congr :
    ∀ (fuel fuel' : Nat) (cs : List Char), cs.length ≤ fuel → cs.length ≤ fuel' →
      findSectionsF fuel cs = findSectionsF fuel' cs := by
  intro fuel
  induction fuel with
  | zero =>
    intro fuel' cs h h'
    have : cs = [] := List.length_eq_zero.mp (Nat.le_zero.mp h)
    subst this
    cases fuel' <;> rfl
  | succ f ih =>
    intro fuel' cs h h'
    cases cs with
    | nil => cases fuel' <;> rfl
    | cons c cs' =>
      cases fuel' with
      | zero => simp at h'
      | succ f' =>
        unfold findSectionsF
        split
        · rename_i t b rest hm
          have hlen := sectionMatchAt_length hm
          simp only [List.length_cons] at h h' hlen
          rw [ih f' rest (by omega) (by omega)]
        · simp only [List.length_cons] at h h'
          rw [ih f' cs' (by omega) (by omega)]

/-! Part 12: `parse_changelog` (the Release Extractor & Section Parser). -/

/-- The inner loop of `parse_changelog` over the sections found in the
whole document: build the list of section records, but if any stripped
title is not in `allowed_sections` the source returns `[]` from the whole
function, modelled by `none`. -/
def parseSections (allowed : List String) : List (String × String) → Option (List ChangeSection)
  | [] => some []
  | (title, changes) :: rest =>
    if pyStrip title ∈ allowed then
      match parseSections allowed rest with
      | some l => some (⟨pyStrip title, (splitDash (pyStripL changes.data)).map (⟨·⟩)⟩ :: l)
      | none => none
    else none

/-- The outer loop of `parse_changelog` over the `(version, date)`
matches, with `acc` the list built so far (Python's `changelog`): for
each release heading the source re-scans the whole document for
sections; an unrecognized section label makes it return `[]`, discarding
everything accumulated. -/
def changelogLoop (content : List Char) (allowed : List String) :
    List (String × String) → List Version → List Version
  | [], acc => acc
  | (v, d) :: rest, acc =>
    match parseSections allowed (findSections content) with
    | some secs => changelogLoop content allowed rest (acc ++ [⟨v, d, secs⟩])
    | none => []

/-- Model of `parse_changelog`: find every release heading with the loose pattern
`## \[(.*?)\] - (\d{4}-\d{2}-\d{2})`, then run the section scan for each
of them. -/
def parse_changelog (content : String) (allowed : List String) : List Version :=
  changelogLoop content.data allowed (findReleases content.data) []

/-! Part 13: specification-side predicates.
These state, in the spec's vocabulary, the shapes the checks are claimed
to recognise; the claim theorems compare them with the source
functions. -/

/-- A semver numeric identifier in the spec's words: a non-negative
integer without leading zeros, written as a digit string (`"0"`, or a
digit string not starting with `'0'`). -/
def NumToken (cs : List Char) : Prop :=
  cs = ['0'] ∨ (cs ≠ [] ∧ (∀ c ∈ cs, c.isDigit = true) ∧ cs.head? ≠ some '0')

/-- The version string begins with a prefix matching the semver grammar.
Since the grammar's pre-release and build-metadata parts are optional,
a string has a prefix matching the full grammar exactly when it has a
prefix of the mandatory core form `<num>.<num>.<num>`. -/
def SemverStart (s : String) : Prop :=
  ∃ a b c rest, NumToken a ∧ NumToken b ∧ NumToken c ∧
    s.data = a ++ '.' :: (b ++ '.' :: (c ++ rest))

/-- The first ten characters have the digit shape `\d{4}-\d{2}-\d{2}`. -/
def DateShapeSpec (l : List Char) : Prop :=
  ∃ y1 y2 y3 y4 m1 m2 d1 d2,
    l = [y1, y2, y3, y4, '-', m1, m2, '-', d1, d2] ∧
    y1.isDigit = true ∧ y2.isDigit = true ∧ y3.isDigit = true ∧ y4.isDigit = true ∧
    m1.isDigit = true ∧ m2.isDigit = true ∧ d1.isDigit = true ∧ d2.isDigit = true

/-- The parsed calendar value of a matched date string (defined when
`strptime` succeeds; `0` otherwise). -/
def dateVal (s : String) : Nat := (strptime s).getD 0

/-- The spec's ordering invariant over the scanner's `(version, date)`
matches, in document order: each later entry's version is strictly less
than its predecessor's under plain lexicographic string comparison, and
its date value is not later than its predecessor's. -/
def orderedPairs : List (String × String) → Prop
  | [] => True
  | [_] => True
  | p :: c :: rest =>
    (pyLt c.1.data p.1.data = true ∧ dateVal c.2 ≤ dateVal p.2) ∧ orderedPairs (c :: rest)

instance orderedPairsDecidable : (l : List (String × String)) → Decidable (orderedPairs l)
  | [] => inferInstanceAs (Decidable True)
  | [_] => inferInstanceAs (Decidable True)
  | _ :: c :: rest =>
    have : Decidable (orderedPairs (c :: rest)) := orderedPairsDecidable (c :: rest)
    inferInstanceAs (Decidable (_ ∧ _))

/-! Claim C9: the date grammar check. -/

theorem dateShapeAt_isSome_iff (cs : List Char) :
    (dateShapeAt cs).isSome = true ↔ DateShapeSpec (cs.take 10) := by
  constructor
  · intro h
    unfold dateShapeAt at h
    split at h
    · rename_i y1 y2 y3 y4 m1 m2 d1 d2 rest
      split at h
      · rename_i hdig
        simp only [Bool.and_eq_true] at hdig
        refine ⟨y1, y2, y3, y4, m1, m2, d1, d2, by simp [List.take],
          ?_, ?_, ?_, ?_, ?_, ?_, ?_, ?_⟩ <;> tauto
      · simp at h
    · simp at h
  · intro h
    obtain ⟨y1, y2, y3, y4, m1, m2, d1, d2, h10, hd⟩ := h
    obtain ⟨t, rfl⟩ : ∃ t, cs = [y1, y2, y3, y4, '-', m1, m2, '-', d1, d2] ++ t := by
      refine ⟨cs.drop 10, ?_⟩
      rw [← h10]
      exact (List.take_append_drop 10 cs).symm
    simp only [List.cons_append, List.nil_append]
    unfold dateShapeAt
    simp [hd.1, hd.2.1, hd.2.2.1, hd.2.2.2.1, hd.2.2.2.2.1, hd.2.2.2.2.2.1,
      hd.2.2.2.2.2.2.1, hd.2.2.2.2.2.2.2]

/-- C9: `verify_date` returns `true` exactly when the date string is
non-empty and its first ten characters match the digit shape
`\d{4}-\d{2}-\d{2}`; in particular the calendar-invalid `"2024-13-45"`
is accepted, and characters after the first ten are ignored (the result
depends only on the ten-character prefix). -/
theorem verify_date_characterisation :
    (∀ d : String, verify_date d = true ↔ (d ≠ "" ∧ DateShapeSpec (d.data.take 10))) ∧
    verify_date "2024-13-45" = true := by
  constructor
  · intro d
    have hempty : d = "" ↔ d.data = [] := by
      rw [String.ext_iff]
    unfold verify_date
    split
    · rename_i hlen
      have hdata : d.data = [] := by
        cases hd : d.data with
        | nil => rfl
        | cons c t => rw [hd] at hlen; simp at hlen
      constructor
      · intro h
        exact absurd h (by simp)
      · rintro ⟨hne, -⟩
        exact absurd (hempty.mpr hdata) hne
    · rename_i hlen
      rw [dateShapeAt_isSome_iff]
      constructor
      · intro h
        refine ⟨?_, h⟩
        intro he
        exact hlen (by rw [hempty.mp he]; simp)
      · rintro ⟨-, h⟩
        exact h
  · decide

/-! Claim C10: `verify_version` accumulates one message per failed
check, in source order, and the link stub never contributes -/

/-- C10: `verify_version` is a total function of the release record (no
exception is possible in the embedding, where every section record
carries its label field); it performs the version-grammar, date-grammar
and section-membership checks without short-circuiting, returning the
concatenation of one fixed message per failed check in that order, and
the link-reference stub check contributes no message (so at most three
messages ever result). -/
theorem verify_version_structure (v : Version) (allowed : List String) :
    verify_version v allowed =
      (if verify_semver v.version then []
        else ["Version " ++ v.version ++ " is not a valid semantic version."]) ++
      (if verify_date v.date then []
        else ["Version " ++ v.version ++ " has an invalid release date format."]) ++
      (if (verify_sections v.sections allowed).ok then []
        else ["Version " ++ v.version ++ " contains an invalid section. " ++
          "Valid sections are: " ++ String.intercalate ", " allowed]) ∧
    (verify_version v allowed).length ≤ 3 := by
  have h : verify_version v allowed =
      (if verify_semver v.version then []
        else ["Version " ++ v.version ++ " is not a valid semantic version."]) ++
      (if verify_date v.date then []
        else ["Version " ++ v.version ++ " has an invalid release date format."]) ++
      (if (verify_sections v.sections allowed).ok then []
        else ["Version " ++ v.version ++ " contains an invalid section. " ++
          "Valid sections are: " ++ String.intercalate ", " allowed]) := by
    unfold verify_version verify_links
    by_cases h1 : verify_semver v.version <;>
      by_cases h2 : verify_date v.date <;>
        by_cases h3 : (verify_sections v.sections allowed).ok <;>
          simp [h1, h2, h3]
  refine ⟨h, ?_⟩
  rw [h]
  by_cases h1 : verify_semver v.version <;>
    by_cases h2 : verify_date v.date <;>
      by_cases h3 : (verify_sections v.sections allowed).ok <;>
        simp [h1, h2, h3]

/-! Claim C5: the semantic-version grammar check. -/

theorem mem_digitRemainders (cs : List Char) (r : List Char) :
    r ∈ digitRemainders cs ↔ ∃ ds, (∀ c ∈ ds, c.isDigit = true) ∧ cs = ds ++ r := by
  induction cs with
  | nil =>
    simp only [digitRemainders, List.mem_singleton]
    constructor
    · rintro rfl
      exact ⟨[], by simp, rfl⟩
    · rintro ⟨ds, -, h⟩
      have := List.append_eq_nil.mp h.symm
      simp [this.2]
  | cons c cs' ih =>
    unfold digitRemainders
    split
    · rename_i hdig
      simp only [List.mem_cons]
      constructor
      · rintro (rfl | hr)
        · exact ⟨[], by simp, rfl⟩
        · obtain ⟨ds, hds, rfl⟩ := ih.mp hr
          exact ⟨c :: ds, by simpa [hdig] using hds, rfl⟩
      · rintro ⟨ds, hds, h⟩
        cases ds with
        | nil => simp at h; simp [h]
        | cons d ds' =>
          simp only [List.cons_append, List.cons.injEq] at h
          obtain ⟨rfl, h2⟩ := h
          right
          exact ih.mpr ⟨ds', fun x hx => hds x (List.mem_cons_of_mem _ hx), h2⟩
    · rename_i hdig
      simp only [List.mem_singleton]
      constructor
      · rintro rfl
        exact ⟨[], by simp, rfl⟩
      · rintro ⟨ds, hds, h⟩
        cases ds with
        | nil => simp at h; simp [h]
        | cons d ds' =>
          simp only [List.cons_append, List.cons.injEq] at h
          exact absurd (h.1 ▸ hds d (by simp)) hdig

theorem mem_numRemainders (cs : List Char) (r : List Char) :
    r ∈ numRemainders cs ↔ ∃ n, NumToken n ∧ cs = n ++ r := by
  cases cs with
  | nil =>
    simp only [numRemainders, List.not_mem_nil, false_iff]
    rintro ⟨n, hn, h⟩
    have h2 := List.append_eq_nil.mp h.symm
    rcases hn with h0 | ⟨hne, -, -⟩
    · rw [h2.1] at h0
      exact absurd h0 (by simp)
    · exact hne h2.1
  | cons c cs' =>
    simp only [numRemainders]
    split
    · rename_i h0
      subst h0
      simp only [List.mem_singleton]
      constructor
      · rintro rfl
        exact ⟨['0'], Or.inl rfl, rfl⟩
      · rintro ⟨n, hn, h⟩
        rcases hn with rfl | ⟨hne, -, hhead⟩
        · simp only [List.singleton_append, List.cons.injEq, true_and] at h
          exact h.symm
        · cases n with
          | nil => exact absurd rfl hne
          | cons d ds =>
            simp only [List.cons_append, List.cons.injEq] at h
            rw [h.1] at hhead
            simp at hhead
    · split
      · rename_i h0 hdig
        rw [mem_digitRemainders]
        constructor
        · rintro ⟨ds, hds, rfl⟩
          refine ⟨c :: ds, Or.inr ⟨by simp, ?_, ?_⟩, rfl⟩
          · intro x hx
            rcases List.mem_cons.mp hx with rfl | hx'
            · exact hdig
            · exact hds x hx'
          · simp only [List.head?_cons, ne_eq, Option.some.injEq]
            exact h0
        · rintro ⟨n, hn, h⟩
          rcases hn with rfl | ⟨hne, hdigs, -⟩
          · simp only [List.singleton_append, List.cons.injEq] at h
            exact absurd h.1 h0
          · cases n with
            | nil => exact absurd rfl hne
            | cons d ds =>
              simp only [List.cons_append, List.cons.injEq] at h
              exact ⟨ds, fun x hx => hdigs x (List.mem_cons_of_mem _ hx), h.2⟩
      · rename_i h0 hdig
        simp only [List.not_mem_nil, false_iff]
        rintro ⟨n, hn, h⟩
        rcases hn with rfl | ⟨hne, hdigs, -⟩
        · simp only [List.singleton_append, List.cons.injEq] at h
          rw [h.1] at hdig
          simp at hdig
        · cases n with
          | nil => exact absurd rfl hne
          | cons d ds =>
            simp only [List.cons_append, List.cons.injEq] at h
            apply hdig
            rw [h.1]
            exact hdigs d (by simp)

theorem verify_semver_iff (s : String) : verify_semver s = true ↔ SemverStart s := by
  unfold verify_semver SemverStart
  rw [List.any_eq_true]
  constructor
  · rintro ⟨r1, hr1, hp1⟩
    split at hp1
    · rename_i r2
      rw [List.any_eq_true] at hp1
      obtain ⟨r3, hr3, hp3⟩ := hp1
      split at hp3
      · rename_i r4
        rw [Bool.not_eq_true', List.isEmpty_eq_false] at hp3
        obtain ⟨r5, hr5⟩ := List.exists_mem_of_ne_nil _ hp3
        obtain ⟨a, ha, hsa⟩ := (mem_numRemainders _ _).mp hr1
        obtain ⟨b, hb, hsb⟩ := (mem_numRemainders _ _).mp hr3
        obtain ⟨c, hc, hsc⟩ := (mem_numRemainders _ _).mp hr5
        exact ⟨a, b, c, r5, ha, hb, hc, by rw [hsa, hsb, hsc]⟩
      · simp at hp3
    · simp at hp1
  · rintro ⟨a, b, c, rest, ha, hb, hc, hs⟩
    refine ⟨'.' :: (b ++ '.' :: (c ++ rest)), (mem_numRemainders _ _).mpr ⟨a, ha, hs⟩, ?_⟩
    show ((numRemainders (b ++ '.' :: (c ++ rest))).any fun r3 =>
        match r3 with
        | '.' :: r4 => !(numRemainders r4).isEmpty
        | _ => false) = true
    rw [List.any_eq_true]
    refine ⟨'.' :: (c ++ rest), (mem_numRemainders _ _).mpr ⟨b, hb, rfl⟩, ?_⟩
    show (!(numRemainders (c ++ rest)).isEmpty) = true
    rw [Bool.not_eq_true', List.isEmpty_eq_false]
    exact List.ne_nil_of_mem ((mem_numRemainders _ _).mpr ⟨c, hc, rfl⟩)

/-- C5: `verify_semver` accepts exactly the strings that begin with a
prefix matching the semver grammar (the optional pre-release and build
parts can be absent, so this is equivalent to beginning with
`<num>.<num>.<num>` for numeric identifiers without leading zeros);
trailing garbage after a valid prefix is accepted (`"1.2.3garbage"`),
`"1.2"` is rejected, and `verify_version` then reports the message
naming that exact version token. -/
theorem verify_semver_characterisation :
    (∀ s : String, verify_semver s = true ↔ SemverStart s) ∧
    verify_semver "1.2.3garbage" = true ∧
    verify_semver "1.2" = false ∧
    "Version 1.2 is not a valid semantic version." ∈
      verify_version ⟨"1.2", "2024-01-01", []⟩ allowedSections := by
  refine ⟨verify_semver_iff, by decide, by decide, by decide⟩

/-! Claims C3 and C4: the extractor's global section scan and its
abort behaviour -/

theorem changelogLoop_sections (content : List Char) (allowed : List String) :
    ∀ (vs : List (String × String)) (acc : List Version) (e : Version),
      e ∈ changelogLoop content allowed vs acc →
      e ∈ acc ∨ parseSections allowed (findSections content) = some e.sections := by
  intro vs
  induction vs with
  | nil =>
    intro acc e h
    exact Or.inl h
  | cons vd rest ih =>
    intro acc e h
    obtain ⟨v, d⟩ := vd
    unfold changelogLoop at h
    split at h
    · rename_i secs hsec
      rcases ih _ _ h with hacc | hglob
      · rcases List.mem_append.mp hacc with h' | h'
        · exact Or.inl h'
        · right
          rw [List.mem_singleton.mp h']
          exact hsec
      · exact Or.inr hglob
    · simp at h

/-- C3: any two `Version` records returned by `parse_changelog` carry
equal `sections` lists — the section scan runs over the entire document
for every release, so every returned release gets the same section
set. -/
theorem parse_changelog_global_sections (content : String) (allowed : List String)
    (e1 e2 : Version) (h1 : e1 ∈ parse_changelog content allowed)
    (h2 : e2 ∈ parse_changelog content allowed) : e1.sections = e2.sections := by
  unfold parse_changelog at h1 h2
  rcases changelogLoop_sections _ _ _ _ _ h1 with h | h
  · simp at h
  · rcases changelogLoop_sections _ _ _ _ _ h2 with h' | h'
    · simp at h'
    · rw [h] at h'
      exact Option.some.inj h'

theorem parse_changelog_global_sections_witness :
    (⟨"2.0.0", "2024-01-01", [⟨"Added", ["- x"]⟩]⟩ : Version).sections =
      (⟨"1.0.0", "2023-01-01", [⟨"Added", ["- x"]⟩]⟩ : Version).sections :=
  parse_changelog_global_sections
    "## [2.0.0] - 2024-01-01\n## [1.0.0] - 2023-01-01\n### Added\n- x"
    allowedSections _ _ (by decide) (by decide)

theorem parseSections_offender (allowed : List String) :
    ∀ l : List (String × String), (∃ p ∈ l, pyStrip p.1 ∉ allowed) →
      parseSections allowed l = none := by
  intro l
  induction l with
  | nil =>
    rintro ⟨p, hp, -⟩
    simp at hp
  | cons tc rest ih =>
    rintro ⟨p, hp, hbad⟩
    obtain ⟨t, ch⟩ := tc
    unfold parseSections
    split
    · rename_i hok
      rcases List.mem_cons.mp hp with rfl | hrest
      · exact absurd hok hbad
      · rw [ih ⟨p, hrest, hbad⟩]
    · rfl

/-- C4: a document containing any discovered sub-heading whose stripped
label is outside the allow-list makes `parse_changelog` return the empty
list, however many release headings it has; and the empty list is also
exactly what a document with no release headings produces. -/
theorem parse_changelog_abort_on_bad_label :
    (∀ (content : String) (allowed : List String),
      (∃ p ∈ findSections content.data, pyStrip p.1 ∉ allowed) →
      parse_changelog content allowed = []) ∧
    (∀ (content : String) (allowed : List String),
      findReleases content.data = [] → parse_changelog content allowed = []) := by
  constructor
  · intro content allowed hbad
    unfold parse_changelog
    have hnone := parseSections_offender allowed _ hbad
    cases hrel : findReleases content.data with
    | nil => rfl
    | cons vd rest =>
      obtain ⟨v, d⟩ := vd
      unfold changelogLoop
      rw [hnone]
  · intro content allowed hrel
    unfold parse_changelog
    rw [hrel]
    rfl

theorem parse_changelog_abort_on_bad_label_witness :
    parse_changelog "## [2.0.0] - 2024-01-01\n### Security\n- z\n## [1.0.0] - 2023-01-01"
      allowedSections = [] ∧
    parse_changelog "# Changelog\nno release headings" allowedSections = [] :=
  ⟨parse_changelog_abort_on_bad_label.1 _ _ (by decide),
    parse_changelog_abort_on_bad_label.2 _ _ (by decide)⟩

/-! Claim C7: the `Unreleased` sentinel. -/

theorem numDotAt_digit {cs a rest : List Char}
    (h : numDotAt cs = some (a, rest)) :
    ∃ c t, a = c :: t ∧ c.isDigit = true := by
  unfold numDotAt at h
  split at h
  · simp at h
  · rename_i d ds htake
    split at h
    · simp only [Option.some.injEq, Prod.mk.injEq] at h
      obtain ⟨rfl, -⟩ := h
      refine ⟨d, ds, rfl, ?_⟩
      have hd : d ∈ cs.takeWhile Char.isDigit := by rw [htake]; simp
      exact List.mem_takeWhile_imp hd
    · simp at h

theorem strictMatchAt_version_digit {cs : List Char} {v d : String} {rest : List Char}
    (h : strictMatchAt cs = some (v, d, rest)) :
    ∃ c t, v.data = c :: t ∧ c.isDigit = true := by
  unfold strictMatchAt at h
  split at h
  · split at h
    · simp at h
    · rename_i a r1 h1
      split at h
      · simp at h
      · split at h
        · simp at h
        · split at h
          · split at h
            · simp at h
            · simp only [Option.some.injEq, Prod.mk.injEq] at h
              obtain ⟨hv, -, -⟩ := h
              subst hv
              obtain ⟨c, t, rfl, hdig⟩ := numDotAt_digit h1
              exact ⟨c, _, rfl, hdig⟩
          · simp at h
  · simp at h

theorem findVersionDatesStrictF_version_digit :
    ∀ (fuel : Nat) (cs : List Char) (p : String × String),
      p ∈ findVersionDatesStrictF fuel cs →
      ∃ c t, p.1.data = c :: t ∧ c.isDigit = true := by
  intro fuel
  induction fuel with
  | zero =>
    intro cs p h
    simp [findVersionDatesStrictF] at h
  | succ f ih =>
    intro cs p h
    cases cs with
    | nil => simp [findVersionDatesStrictF] at h
    | cons c cs' =>
      unfold findVersionDatesStrictF at h
      split at h
      · rename_i v d rest hm
        rcases List.mem_cons.mp h with rfl | h'
        · exact strictMatchAt_version_digit hm
        · exact ih _ _ h'
      · exact ih _ _ h

/-- C7 (amended): the scanner's heading-shape check skips every line
containing `[Unreleased]`, and its ordering `findall` (whose version
group is `\d+\.\d+\.\d+`) can never produce the version token
`Unreleased`, so the sentinel is exempt from the scanner's shape and
ordering checks; but `verify_version` itself applies the
semantic-version grammar check to `Unreleased` like any other token and
reports a violation for it. -/
theorem unreleased_exemption_scanner_only :
    (∀ line : List Char, containsSub line "[Unreleased]".data = true → lineOk line = true) ∧
    (∀ (content : List Char) (p : String × String),
      p ∈ findVersionDatesStrict content → p.1 ≠ "Unreleased") ∧
    verify_version ⟨"Unreleased", "2024-01-01", []⟩ allowedSections =
      ["Version Unreleased is not a valid semantic version."] := by
  refine ⟨?_, ?_, by decide⟩
  · intro line h
    simp [lineOk, h]
  · intro content p hp hun
    obtain ⟨c, t, hdata, hdig⟩ := findVersionDatesStrictF_version_digit _ _ _ hp
    rw [hun] at hdata
    rw [show "Unreleased".data = 'U' :: "nreleased".data from rfl] at hdata
    have h1 := (List.cons.inj hdata).1
    rw [← h1] at hdig
    exact absurd hdig (by decide)

theorem unreleased_exemption_scanner_only_witness :
    lineOk "## [Unreleased]".data = true ∧ ("2.0.0" : String) ≠ "Unreleased" :=
  ⟨unreleased_exemption_scanner_only.1 _ (by decide),
    unreleased_exemption_scanner_only.2.1 "## [2.0.0] - 2024-01-01".data
      ("2.0.0", "2024-01-01") (by decide)⟩

/-- C7 counterexample: contrary to the claim that a `Release` with
version token `Unreleased` receives no semantic-version grammar
violation, `verify_version` reports exactly such a violation for it. -/
theorem unreleased_semver_violation :
    verify_version ⟨"Unreleased", "2024-01-01", []⟩ allowedSections =
      ["Version Unreleased is not a valid semantic version."] ∧
    containsSub "Version Unreleased is not a valid semantic version.".data
      "is not a valid semantic version".data = true := by
  constructor
  · decide
  · decide

/-! Claim C8: which output names the first offending section. -/

theorem verify_sections_spec (allowed : List String) :
    ∀ (pre : List ChangeSection) (s : ChangeSection) (post : List ChangeSection),
      (∀ x ∈ pre, x.sectionName ∈ allowed) → s.sectionName ∉ allowed →
      verify_sections (pre ++ s :: post) allowed =
        ⟨false, ["Section issue: " ++ s.sectionName]⟩ := by
  intro pre
  induction pre with
  | nil =>
    intro s post hpre hs
    rw [List.nil_append]
    simp only [verify_sections]
    rw [if_neg hs]
  | cons x pre' ih =>
    intro s post hpre hs
    rw [List.cons_append]
    simp only [verify_sections]
    rw [if_pos (hpre x (by simp))]
    exact ih s post (fun y hy => hpre y (by simp [hy])) hs

/-- C8 (amended): for a release whose section list has a first offending
label (all labels before it allowed, it not allowed), the returned
violation message for section membership is the single generic message
naming the version and the allow-list — not the offender; the offending
label is named only on the console diagnostic channel, whose output
consists of exactly one line naming that first offender. -/
theorem verify_sections_first_offender (pre : List ChangeSection) (s : ChangeSection)
    (post : List ChangeSection) (allowed : List String) (v : Version)
    (hpre : ∀ x ∈ pre, x.sectionName ∈ allowed) (hs : s.sectionName ∉ allowed)
    (hv : v.sections = pre ++ s :: post) :
    (verify_sections v.sections allowed).printed = ["Section issue: " ++ s.sectionName] ∧
    (verify_sections v.sections allowed).ok = false ∧
    ("Version " ++ v.version ++ " contains an invalid section. " ++
      "Valid sections are: " ++ String.intercalate ", " allowed) ∈
      verify_version v allowed := by
  have hvs : verify_sections v.sections allowed =
      ⟨false, ["Section issue: " ++ s.sectionName]⟩ := by
    rw [hv]
    exact verify_sections_spec allowed pre s post hpre hs
  refine ⟨by rw [hvs], by rw [hvs], ?_⟩
  unfold verify_version
  rw [hvs]
  by_cases h1 : verify_semver v.version <;> by_cases h2 : verify_date v.date <;>
    simp [h1, h2, verify_links, hasLinkReference]

theorem verify_sections_first_offender_witness :
    (verify_sections (⟨"1.0.0", "2024-01-01",
        [⟨"Added", []⟩, ⟨"Security", []⟩]⟩ : Version).sections allowedSections).printed =
      ["Section issue: " ++ "Security"] ∧
    (verify_sections (⟨"1.0.0", "2024-01-01",
        [⟨"Added", []⟩, ⟨"Security", []⟩]⟩ : Version).sections allowedSections).ok = false ∧
    ("Version " ++ "1.0.0" ++ " contains an invalid section. " ++
      "Valid sections are: " ++ String.intercalate ", " allowedSections) ∈
      verify_version ⟨"1.0.0", "2024-01-01",
        [⟨"Added", []⟩, ⟨"Security", []⟩]⟩ allowedSections :=
  verify_sections_first_offender [⟨"Added", []⟩] ⟨"Security", []⟩ [] allowedSections
    _ (by decide) (by decide) rfl

/-- C8 counterexample: for a release with the single disallowed section
label `Security`, the list returned by `verify_version` is exactly the
generic membership message, and no returned message contains the
offender's label at all. -/
theorem verify_version_message_lacks_offender :
    verify_version ⟨"1.0.0", "2024-01-01", [⟨"Security", ["z"]⟩]⟩ allowedSections =
      ["Version 1.0.0 contains an invalid section. " ++
        "Valid sections are: Added, Changed, Fixed, Deprecated, Removed"] ∧
    containsSub ("Version 1.0.0 contains an invalid section. " ++
      "Valid sections are: Added, Changed, Fixed, Deprecated, Removed").data
      "Security".data = false := by
  constructor
  · decide
  · decide

/-! Claims C1, C2, C6: the Structural Scanner's ordering behaviour. -/

theorem pyLt_asymm : ∀ a b : List Char, pyLt a b = true → pyLt b a = false := by
  intro a
  induction a with
  | nil =>
    intro b h
    cases b with
    | nil => simp [pyLt] at h
    | cons c bs => simp [pyLt]
  | cons x as ih =>
    intro b h
    cases b with
    | nil => simp [pyLt] at h
    | cons y bs =>
      simp only [pyLt] at h ⊢
      by_cases hxy : x < y
      · have hnyx : ¬ y < x := fun hc => absurd hc (lt_asymm hxy)
        rw [if_neg hnyx, if_pos hxy]
      · rw [if_neg hxy] at h
        by_cases hyx : y < x
        · rw [if_pos hyx] at h
          exact absurd h (by simp)
        · rw [if_neg hyx] at h
          rw [if_neg hyx, if_neg hxy]
          exact ih bs h

theorem orderLoop_eq_orderedPairs :
    ∀ l : List (String × String), (∀ p ∈ l, (strptime p.2).isSome = true) →
      orderLoop l = some (decide (orderedPairs l)) := by
  intro l
  induction l with
  | nil =>
    intro hv
    simp [orderLoop, orderedPairs]
  | cons p tail ih =>
    intro hv
    cases tail with
    | nil => simp [orderLoop, orderedPairs]
    | cons q rest =>
      obtain ⟨vp, dp⟩ := p
      obtain ⟨vc, dc⟩ := q
      obtain ⟨tc, htc⟩ := Option.isSome_iff_exists.mp (hv (vc, dc) (by simp))
      obtain ⟨tp, htp⟩ := Option.isSome_iff_exists.mp (hv (vp, dp) (by simp))
      have hrec := ih (fun r hr => hv r (List.mem_cons_of_mem _ hr))
      have hdef : orderedPairs ((vp, dp) :: (vc, dc) :: rest) ↔
          ((pyLt vc.data vp.data = true ∧ dateVal dc ≤ dateVal dp) ∧
            orderedPairs ((vc, dc) :: rest)) := by
        simp only [orderedPairs]
      simp only [orderLoop, htc, htp]
      by_cases h1 : pyLt vc.data vp.data
      · by_cases h2 : tp < tc
        · rw [if_pos h1, if_pos h2]
          have hnot : ¬ orderedPairs ((vp, dp) :: (vc, dc) :: rest) := by
            rw [hdef]
            rintro ⟨⟨-, hle⟩, -⟩
            rw [dateVal, dateVal, htc, htp] at hle
            simp at hle
            omega
          rw [decide_eq_false hnot]
        · rw [if_pos h1, if_neg h2, hrec]
          have hiff : orderedPairs ((vp, dp) :: (vc, dc) :: rest) ↔
              orderedPairs ((vc, dc) :: rest) := by
            rw [hdef]
            constructor
            · rintro ⟨-, ht⟩
              exact ht
            · intro ht
              refine ⟨⟨h1, ?_⟩, ht⟩
              rw [dateVal, dateVal, htc, htp]
              simp
              omega
          rw [decide_eq_decide.mpr hiff]
      · rw [if_neg h1]
        have hnot : ¬ orderedPairs ((vp, dp) :: (vc, dc) :: rest) := by
          rw [hdef]
          rintro ⟨⟨hlt, -⟩, -⟩
          exact h1 hlt
        rw [decide_eq_false hnot]

/-- C1 (amended): for any document passing the scanner's earlier checks
(title marker, Unreleased marker, heading-line shapes, at least two
dated heading matches), and whose matched dates are all calendar-valid
(without this proviso the scan raises instead of returning), the scan
returns `true` exactly when every adjacent pair of matches has a
strictly lexicographically smaller version and a date value not later
than its predecessor's, and `false` otherwise. -/
theorem scanner_decides_ordering (content : String)
    (h1 : containsSub content.data "# Changelog".data = true)
    (h2 : containsSub content.data "## [Unreleased]".data = true)
    (h3 : (splitLines content.data).all lineOk = true)
    (h4 : 2 ≤ (findVersionDatesStrict content.data).length)
    (h5 : ∀ p ∈ findVersionDatesStrict content.data, (strptime p.2).isSome = true) :
    verify_changelog_format content =
      some (decide (orderedPairs (findVersionDatesStrict content.data))) := by
  unfold verify_changelog_format
  rw [if_neg (by simp [h1]), if_neg (by simp [h2]), if_neg (by simp [h3]),
    if_neg (by simp [Nat.not_lt.mpr h4])]
  exact orderLoop_eq_orderedPairs _ h5

theorem scanner_decides_ordering_witness :
    verify_changelog_format
      "# Changelog\n## [Unreleased]\n## [2.0.0] - 2024-01-01\n## [1.0.0] - 2023-01-01" =
      some true := by
  have h := scanner_decides_ordering
    "# Changelog\n## [Unreleased]\n## [2.0.0] - 2024-01-01\n## [1.0.0] - 2023-01-01"
    (by decide) (by decide) (by decide) (by decide) (by decide)
  rw [h]
  decide

/-- C1 counterexample: this document passes every earlier scanner check,
its two matches have strictly descending versions and equal date strings
(so no date is strictly later than its predecessor), yet the scan
returns no boolean at all — the calendar-invalid month `13` makes
`strptime` raise (modelled `none`), contradicting the claim that the
scan then returns `true`. -/
theorem scanner_ordering_exception :
    containsSub
      "# Changelog\n## [Unreleased]\n## [2.0.0] - 2024-13-45\n## [1.0.0] - 2024-13-45".data
      "# Changelog".data = true ∧
    containsSub
      "# Changelog\n## [Unreleased]\n## [2.0.0] - 2024-13-45\n## [1.0.0] - 2024-13-45".data
      "## [Unreleased]".data = true ∧
    (splitLines
      "# Changelog\n## [Unreleased]\n## [2.0.0] - 2024-13-45\n## [1.0.0] - 2024-13-45".data).all
      lineOk = true ∧
    findVersionDatesStrict
      "# Changelog\n## [Unreleased]\n## [2.0.0] - 2024-13-45\n## [1.0.0] - 2024-13-45".data =
      [("2.0.0", "2024-13-45"), ("1.0.0", "2024-13-45")] ∧
    pyLt "1.0.0".data "2.0.0".data = true ∧
    verify_changelog_format
      "# Changelog\n## [Unreleased]\n## [2.0.0] - 2024-13-45\n## [1.0.0] - 2024-13-45" =
      none := by
  refine ⟨by decide, by decide, by decide, by decide, by decide, by decide⟩

/-- C2: `verify_changelog_format` is claimed total and boolean-valued,
but on a document whose dated heading carries the shape-valid,
calendar-invalid date `2024-13-45` the ordering loop's
`datetime.strptime` call raises `ValueError` (modelled as `none`), so
the function returns no boolean. -/
theorem scanner_raises_on_invalid_date :
    verify_changelog_format
      "# Changelog\n## [Unreleased]\n## [2.0.0] - 2024-13-45\n## [1.0.0] - 2023-01-01" =
      none := by
  decide

/-- C6 (amended): for a well-formed document with exactly two dated
releases `A` then `B` (passing the scanner's earlier checks, with
calendar-valid dates), the scanner reports failure whenever `A`'s
version is lexicographically smaller than `B`'s, and also whenever `A`'s
date is chronologically earlier than `B`'s (ordering must be
non-ascending down the document on both axes; the original claim had the
date direction inverted). -/
theorem scanner_two_release_failure (content : String) (va da vb db : String)
    (ta tb : Nat)
    (h1 : containsSub content.data "# Changelog".data = true)
    (h2 : containsSub content.data "## [Unreleased]".data = true)
    (h3 : (splitLines content.data).all lineOk = true)
    (hm : findVersionDatesStrict content.data = [(va, da), (vb, db)])
    (hta : strptime da = some ta) (htb : strptime db = some tb)
    (hviol : pyLt va.data vb.data = true ∨ ta < tb) :
    verify_changelog_format content = some false := by
  unfold verify_changelog_format
  rw [if_neg (by simp [h1]), if_neg (by simp [h2]), if_neg (by simp [h3])]
  rw [hm]
  rw [if_neg (by simp)]
  simp only [orderLoop, hta, htb]
  rcases hviol with hv | hd
  · rw [pyLt_asymm _ _ hv]
    simp
  · by_cases hvb : pyLt vb.data va.data
    · rw [if_pos hvb, if_pos hd]
    · rw [if_neg hvb]

theorem scanner_two_release_failure_witness :
    verify_changelog_format
      "# Changelog\n## [Unreleased]\n## [1.0.0] - 2024-01-01\n## [2.0.0] - 2023-01-01" =
      some false :=
  scanner_two_release_failure _ "1.0.0" "2024-01-01" "2.0.0" "2023-01-01"
    20240101 20230101 (by decide) (by decide) (by decide) (by decide)
    (by decide) (by decide) (Or.inl (by decide))

/-- C6 counterexample: a document with two releases `A` then `B` where
`A.date` is chronologically *later* than `B.date` (the normal
newest-first layout) is *accepted* by the scanner, contradicting the
claim that `A.date > B.date` causes failure — the source fails on
`date_current > date_previous`, i.e. on `B.date > A.date`. -/
theorem scanner_accepts_later_first_date :
    verify_changelog_format
      "# Changelog\n## [Unreleased]\n## [2.0.0] - 2024-01-01\n## [1.0.0] - 2023-01-01" =
      some true ∧
    findVersionDatesStrict
      "# Changelog\n## [Unreleased]\n## [2.0.0] - 2024-01-01\n## [1.0.0] - 2023-01-01".data =
      [("2.0.0", "2024-01-01"), ("1.0.0", "2023-01-01")] ∧
    dateVal "2023-01-01" < dateVal "2024-01-01" := by
  refine ⟨by decide, by decide, by decide⟩
